import Mathlib

/-!
Verification of the scoring core of `colpali_engine/utils/processing_utils.py`
(class `BaseVisualRetrieverProcessor`): single-vector dot-product scoring,
multi-vector late-interaction (MaxSim) scoring with batching and zero padding,
PLAID top-k retrieval and PLAID index creation.

Embedding conventions:
* scalars are drawn from a linear ordered commutative ring `A` (exact
  arithmetic stands in for the floating-point values of the source; theorems
  hold for any such ring, concrete evaluations use the integers);
* a rank-1 tensor is a `List A`, a rank-2 tensor a `List (List A)`, and so on;
* the `dtype` and `device` of a torch tensor are tracked symbolically as tags,
  mirroring the `.to(device)`, `.to(torch.float32)` and `.cpu()` calls of the
  source;
* the `device` argument of each operation is the already resolved compute
  device (the source computes it as `device or get_torch_device("auto")`);
* the external `fast_plaid` backend is an opaque collaborator: its `search`
  and `create` operations are passed in as opaque functions, and its
  availability as a boolean;
* Python exceptions (`ValueError`, `AssertionError`, `RuntimeError` from
  `torch.cat` on an empty list, `ImportError`) become `Except String` errors.
-/

namespace ColPali

variable {A : Type} [LinearOrderedCommRing A]

/-- Torch device tag. -/
inductive Device where
  | cpu
  | cuda
  | mps
deriving DecidableEq, Repr

/-- Torch numeric dtype tag. -/
inductive DType where
  | float32
  | float16
  | bfloat16
  | float64
deriving DecidableEq, Repr

/-- A rank-2 tensor: rows of scalars plus the device and dtype tags. -/
structure Tensor2 (A : Type) where
  data : List (List A)
  device : Device
  dtype : DType
deriving DecidableEq, Repr

/-- A rank-3 tensor (batch row, sequence position, embedding dimension) with
device and dtype tags. -/
structure Tensor3 (A : Type) where
  data : List (List (List A))
  device : Device
  dtype : DType
deriving DecidableEq, Repr

/-- Dot product of two vectors, the contraction over the shared trailing
dimension performed by `torch.einsum`. -/
def dot (u v : List A) : A := (List.zipWith (fun a b => a * b) u v).sum

/-- The all-zero vector of dimension `D` (a `padding_value=0` row). -/
def zeroVec (D : Nat) : List A := List.replicate D 0

/-- The maximum sequence length among the embeddings of a batch slice. -/
def maxLen (es : List (List (List A))) : Nat := (es.map List.length).foldr max 0

/-- Pad one embedding with trailing all-zero rows up to length `L`
(no change if it is already at least that long). -/
def padTo (D L : Nat) (e : List (List A)) : List (List A) :=
  e ++ List.replicate (L - e.length) (zeroVec D)

/-- Model of `torch.nn.utils.rnn.pad_sequence(slice, batch_first=True,
padding_value=0)`: every embedding of the slice is padded to the longest
length in the slice.
`D` is the shared embedding dimension (implicit in the tensor shapes of the
source). -/
def padSequence (D : Nat) (es : List (List (List A))) : List (List (List A)) :=
  es.map (padTo D (maxLen es))

/-- Maximum of a list of scalars (`Tensor.max` over one axis). The value on
the empty list is an arbitrary default: the scoring code never reduces an
empty axis there (torch would raise), and the theorems below carry the
corresponding non-emptiness hypotheses. -/
def listMax : List A → A
  | [] => 0
  | x :: xs => xs.foldl max x

/-- Model of `torch.einsum("bnd,csd->bcns", Q, P).max(dim=3)[0].sum(dim=2)`
restricted to one query row `q` and one passage row `p`: for each query token, the
maximum dot product against all passage tokens, summed over the query
tokens. -/
def maxSimPair (q p : List (List A)) : A :=
  (q.map (fun qv => listMax (p.map (fun pv => dot qv pv)))).sum

/-- One (query batch, passage batch) block of MaxSim scores. -/
def scoresBlock (Q P : List (List (List A))) : List (List A) :=
  Q.map (fun q => P.map (fun p => maxSimPair q p))

/-- Model of `torch.cat(dim=1)` on two blocks with the same row count. -/
def hcat2 (M N : List (List A)) : List (List A) :=
  List.zipWith (fun r s => r ++ s) M N

/-- Model of `torch.cat(scores_batch, dim=1)`: horizontal concatenation of the
blocks collected by the inner passage loop (the loop guarantees a non-empty
list). -/
def hcat : List (List (List A)) → List (List A)
  | [] => []
  | M :: Ms => Ms.foldl hcat2 M

/-- Fuel-driven worker for `toBatches`; structural recursion, so that concrete
terms reduce by the kernel. -/
def toBatchesGo {B : Type} (b : Nat) : Nat → List B → List (List B)
  | _, [] => []
  | 0, _ :: _ => []
  | fuel + 1, x :: xs => (x :: xs).take b :: toBatchesGo b fuel ((x :: xs).drop b)

/-- The consecutive slices `l[i : i+b]` for `i = 0, b, 2b, ...`: the batching
loop `for i in range(0, len(l), b)` of the source, for a positive step `b`. -/
def toBatches {B : Type} (b : Nat) (l : List B) : List (List B) :=
  toBatchesGo b l.length l

/-- Model of `BaseVisualRetrieverProcessor.score_single_vector`. The inputs are
single-vector embeddings; `torch.stack` and `einsum("bd,cd->bc")` produce the
dense dot-product matrix, the assert checks the row count, and the result is
cast to float32. No `.cpu()` transfer happens on this path, so the result
keeps the compute device. -/
def score_single_vector (device : Device) (qs ps : List (List A)) :
    Except String (Tensor2 A) :=
  if qs.length = 0 then .error "No queries provided"
  else if ps.length = 0 then .error "No passages provided"
  else
    let scores := qs.map (fun q => ps.map (fun p => dot q p))
    if scores.length = qs.length then
      .ok ⟨scores, device, .float32⟩
    else .error "AssertionError: row count differs from len(qs)"

/-- Model of `BaseVisualRetrieverProcessor.score_multi_vector` on list inputs.
Queries and passages are cut into consecutive slices of `batch_size` items;
each slice is padded with zero rows to its own maximal length; each
(query batch, passage batch) pair contributes an einsum/max/sum block; blocks
are concatenated along passages (`dim=1`), moved to the cpu, concatenated
along queries (`dim=0`), checked by the assert and cast to float32.
A zero `batch_size` makes `range` raise, a negative one yields no batches and
makes `torch.cat` raise on the empty list. -/
def score_multi_vector (D : Nat) (device : Device)
    (qs ps : List (List (List A))) (batch_size : Int) :
    Except String (Tensor2 A) :=
  if qs.length = 0 then .error "No queries provided"
  else if ps.length = 0 then .error "No passages provided"
  else if batch_size = 0 then .error "ValueError: range() arg 3 must not be zero"
  else
    let qBatches := if batch_size < 0 then [] else toBatches batch_size.toNat qs
    let pBatches := if batch_size < 0 then [] else toBatches batch_size.toNat ps
    let scoresList := qBatches.map (fun qb =>
      hcat (pBatches.map (fun pb =>
        scoresBlock (padSequence D qb) (padSequence D pb))))
    if scoresList.isEmpty then
      .error "RuntimeError: torch.cat expected a non-empty list of Tensors"
    else
      let scores := scoresList.flatten
      if scores.length = qs.length then
        .ok ⟨scores, .cpu, .float32⟩
      else .error "AssertionError: row count differs from len(qs)"

/-- Model of `BaseVisualRetrieverProcessor.get_topk_plaid`. `searchFn` is the opaque
`plaid_index.search(queries_embeddings, top_k)` of the external backend,
returning one ranked result list per row of the handed batch. Each query
batch is padded, cast to float32 and handed to the index; the per-batch
results are appended to `scores_list`, which is returned as is. -/
def get_topk_plaid {R : Type} (D : Nat) (device : Device)
    (searchFn : Tensor3 A → Nat → List R) (qs : List (List (List A)))
    (k : Nat) (batch_size : Int) : Except String (List (List R)) :=
  if qs.length = 0 then .error "No queries provided"
  else if batch_size = 0 then .error "ValueError: range() arg 3 must not be zero"
  else
    let qBatches := if batch_size < 0 then [] else toBatches batch_size.toNat qs
    .ok (qBatches.map (fun qb =>
      searchFn ⟨padSequence D qb, device, .float32⟩ k))

/-- Model of `BaseVisualRetrieverProcessor.create_plaid_index`. `avail` is the result
of `importlib.util.find_spec("fast_plaid")`; when the backend is missing the
call raises `ImportError`. Otherwise every passage embedding is moved to the
device, cast to float32 and handed to the opaque backend `create` operation. -/
def create_plaid_index {I : Type} (avail : Bool)
    (createFn : List (Tensor2 A) → I) (device : Device)
    (ps : List (List (List A))) : Except String I :=
  if avail then
    .ok (createFn (ps.map (fun d => ⟨d, device, .float32⟩)))
  else
    .error "ImportError: FastPlaid is not installed"

/-- Model of the module-level `try: from fast_plaid import search` wrapped in
`except ImportError: logging.info(...)`: whether or not `fast_plaid` is
installed, importing the module succeeds, recording only availability. -/
def moduleImport (avail : Bool) : Except String Bool := .ok avail

/-- The consecutive batch of size `b` that contains index `i`: the slice
`l[s : s+b]` with `s = b * (i / b)`, per the batching rule of the loops. -/
def batchOf {B : Type} (b : Nat) (l : List B) (i : Nat) : List B :=
  (l.drop (b * (i / b))).take b

/-- Stated from the claim: the MaxSim score of query `i` against passage `j`,
both padded with zero vectors to the maximal length of their respective
batches, the maximum ranging over all padded passage token positions and the
sum over all padded query token positions. -/
def specMaxSimEntry (D b : Nat) (qs ps : List (List (List A))) (i j : Nat) : A :=
  let Lq := maxLen (batchOf b qs i)
  let Lp := maxLen (batchOf b ps j)
  let qPad := padTo D Lq (qs.getD i [])
  let pPad := padTo D Lp (ps.getD j [])
  ((List.range Lq).map (fun n =>
    listMax ((List.range Lp).map (fun s =>
      dot (qPad.getD n []) (pPad.getD s []))))).sum

/-- Stated from the claim: the same MaxSim sum restricted to the real
(unpadded) token positions of query `i`. -/
def specRealMaxSimEntry (D b : Nat) (qs ps : List (List (List A))) (i j : Nat) : A :=
  let Lp := maxLen (batchOf b ps j)
  let q := qs.getD i []
  let pPad := padTo D Lp (ps.getD j [])
  ((List.range q.length).map (fun n =>
    listMax ((List.range Lp).map (fun s =>
      dot (q.getD n []) (pPad.getD s []))))).sum

/-- Entry `(i, j)` of a score tensor. -/
def entryAt (t : Tensor2 A) (i j : Nat) : A := (t.data.getD i []).getD j 0

theorem toBatchesGo_nil {B : Type} (b fuel : Nat) :
    toBatchesGo b fuel ([] : List B) = [] := by
  cases fuel <;> rfl

theorem toBatchesGo_fuel {B : Type} (b : Nat) (hb : 0 < b) :
    ∀ (f1 f2 : Nat) (l : List B), l.length ≤ f1 → l.length ≤ f2 →
      toBatchesGo b f1 l = toBatchesGo b f2 l := by
  intro f1
  induction f1 with
  | zero =>
    intro f2 l hl1 _
    have hnil : l = [] := List.eq_nil_of_length_eq_zero (Nat.le_zero.mp hl1)
    subst hnil
    rw [toBatchesGo_nil, toBatchesGo_nil]
  | succ n ih =>
    intro f2 l hl1 hl2
    cases l with
    | nil => rw [toBatchesGo_nil, toBatchesGo_nil]
    | cons x xs =>
      cases f2 with
      | zero => simp at hl2
      | succ m =>
        show (x :: xs).take b :: toBatchesGo b n ((x :: xs).drop b)
            = (x :: xs).take b :: toBatchesGo b m ((x :: xs).drop b)
        have hd : ((x :: xs).drop b).length ≤ n := by
          simp only [List.length_drop, List.length_cons]
          simp only [List.length_cons] at hl1
          omega
        have hd2 : ((x :: xs).drop b).length ≤ m := by
          simp only [List.length_drop, List.length_cons]
          simp only [List.length_cons] at hl2
          omega
        exact congrArg (List.cons _) (ih m ((x :: xs).drop b) hd hd2)

theorem toBatches_nil {B : Type} (b : Nat) : toBatches b ([] : List B) = [] := rfl

theorem toBatches_cons {B : Type} (b : Nat) (hb : 0 < b) (x : B) (xs : List B) :
    toBatches b (x :: xs) = (x :: xs).take b :: toBatches b ((x :: xs).drop b) := by
  show (x :: xs).take b :: toBatchesGo b xs.length ((x :: xs).drop b)
      = (x :: xs).take b :: toBatches b ((x :: xs).drop b)
  unfold toBatches
  rw [toBatchesGo_fuel b hb xs.length ((x :: xs).drop b).length ((x :: xs).drop b)
      (by simp only [List.length_drop, List.length_cons]; omega) (le_refl _)]

theorem toBatches_ne_nil {B : Type} (b : Nat) (hb : 0 < b) (l : List B)
    (hl : l ≠ []) : toBatches b l ≠ [] := by
  cases l with
  | nil => exact absurd rfl hl
  | cons x xs => rw [toBatches_cons b hb]; simp

theorem toBatches_flatten {B : Type} (b : Nat) (hb : 0 < b) (l : List B) :
    (toBatches b l).flatten = l := by
  have aux : ∀ (n : Nat) (m : List B), m.length ≤ n → (toBatches b m).flatten = m := by
    intro n
    induction n with
    | zero =>
      intro m hm
      have hnil : m = [] := List.eq_nil_of_length_eq_zero (Nat.le_zero.mp hm)
      subst hnil
      rfl
    | succ n ih =>
      intro m hm
      cases m with
      | nil => rfl
      | cons x xs =>
        rw [toBatches_cons b hb, List.flatten_cons,
            ih ((x :: xs).drop b)
              (by simp only [List.length_drop, List.length_cons]
                  simp only [List.length_cons] at hm
                  omega),
            List.take_append_drop]
  exact aux l.length l (le_refl _)

theorem toBatches_getD {B : Type} (b : Nat) (hb : 0 < b) (l : List B) (m : Nat) :
    (toBatches b l).getD m [] = (l.drop (b * m)).take b := by
  have aux : ∀ (n : Nat) (l2 : List B) (m : Nat), l2.length ≤ n →
      (toBatches b l2).getD m [] = (l2.drop (b * m)).take b := by
    intro n
    induction n with
    | zero =>
      intro l2 m hl
      have hnil : l2 = [] := List.eq_nil_of_length_eq_zero (Nat.le_zero.mp hl)
      subst hnil
      simp [toBatches_nil]
    | succ n ih =>
      intro l2 m hl
      cases l2 with
      | nil => simp [toBatches_nil]
      | cons x xs =>
        rw [toBatches_cons b hb]
        cases m with
        | zero => simp
        | succ m =>
          show (toBatches b ((x :: xs).drop b)).getD m [] = _
          rw [ih ((x :: xs).drop b) m
              (by simp only [List.length_drop, List.length_cons]
                  simp only [List.length_cons] at hl
                  omega),
              List.drop_drop]
          have harith : b + b * m = b * (m + 1) := by ring
          rw [harith]
  exact aux l.length l m (le_refl _)

theorem toBatches_length {B : Type} (b : Nat) (hb : 0 < b) (l : List B) :
    (toBatches b l).length = (l.length + b - 1) / b := by
  have aux : ∀ (n : Nat) (m : List B), m.length ≤ n →
      (toBatches b m).length = (m.length + b - 1) / b := by
    intro n
    induction n with
    | zero =>
      intro m hm
      have hnil : m = [] := List.eq_nil_of_length_eq_zero (Nat.le_zero.mp hm)
      subst hnil
      simp only [toBatches_nil, List.length_nil]
      exact (Nat.div_eq_of_lt (by omega)).symm
    | succ n ih =>
      intro m hm
      cases m with
      | nil =>
        simp only [toBatches_nil, List.length_nil]
        exact (Nat.div_eq_of_lt (by omega)).symm
      | cons x xs =>
        rw [toBatches_cons b hb, List.length_cons,
            ih ((x :: xs).drop b)
              (by simp only [List.length_drop, List.length_cons]
                  simp only [List.length_cons] at hm
                  omega)]
        simp only [List.length_drop, List.length_cons]
        rcases Nat.lt_or_ge b (xs.length + 1) with hlt | hge
        · have h1 : xs.length + 1 - b + b - 1 = xs.length := by omega
          have h2 : xs.length + 1 + b - 1 = xs.length + b := by omega
          rw [h1, h2, Nat.add_div_right _ hb]
        · have h1 : xs.length + 1 - b = 0 := by omega
          rw [h1]
          have h2 : (0 + b - 1) / b = 0 := Nat.div_eq_of_lt (by omega)
          rw [h2]
          have h3 : xs.length + 1 + b - 1 = xs.length + b := by omega
          rw [h3, Nat.add_div_right _ hb]
          have h4 : xs.length / b = 0 := Nat.div_eq_of_lt (by omega)
          rw [h4]
  exact aux l.length l (le_refl _)

theorem mem_of_mem_toBatches {B : Type} (b : Nat) (hb : 0 < b) (l : List B)
    (ch : List B) (hch : ch ∈ toBatches b l) (x : B) (hx : x ∈ ch) : x ∈ l := by
  rw [← toBatches_flatten b hb l, List.mem_flatten]
  exact ⟨ch, hch, hx⟩

theorem toBatches_chunk_ne_nil {B : Type} (b : Nat) (hb : 0 < b) (l : List B)
    (ch : List B) (hch : ch ∈ toBatches b l) : ch ≠ [] := by
  have aux : ∀ (n : Nat) (m : List B), m.length ≤ n →
      ∀ ch2 ∈ toBatches b m, ch2 ≠ [] := by
    intro n
    induction n with
    | zero =>
      intro m hm ch2 hch2
      have hnil : m = [] := List.eq_nil_of_length_eq_zero (Nat.le_zero.mp hm)
      subst hnil
      simp [toBatches_nil] at hch2
    | succ n ih =>
      intro m hm ch2 hch2
      cases m with
      | nil => simp [toBatches_nil] at hch2
      | cons x xs =>
        rw [toBatches_cons b hb] at hch2
        rcases List.mem_cons.mp hch2 with heq | hmem
        · subst heq
          cases b with
          | zero => omega
          | succ b2 => simp
        · exact ih ((x :: xs).drop b)
            (by simp only [List.length_drop, List.length_cons]
                simp only [List.length_cons] at hm
                omega) ch2 hmem
  exact aux l.length l (le_refl _) ch hch

theorem toBatches_flatMap_getD {B C : Type} (b : Nat) (hb : 0 < b)
    (f : List B → B → C) (dC : C) (dB : B) (l : List B) (i : Nat)
    (hi : i < l.length) :
    ((toBatches b l).flatMap (fun ch => ch.map (f ch))).getD i dC
      = f ((l.drop (b * (i / b))).take b) (l.getD i dB) := by
  have aux : ∀ (n : Nat) (l2 : List B) (i : Nat), l2.length ≤ n → i < l2.length →
      ((toBatches b l2).flatMap (fun ch => ch.map (f ch))).getD i dC
        = f ((l2.drop (b * (i / b))).take b) (l2.getD i dB) := by
    intro n
    induction n with
    | zero =>
      intro l2 i hl hi2
      omega
    | succ n ih =>
      intro l2 i hl hi2
      cases l2 with
      | nil => simp at hi2
      | cons x xs =>
        rw [toBatches_cons b hb, List.flatMap_cons]
        rcases Nat.lt_or_ge i b with hib | hib
        · have h1 : i < (((x :: xs).take b).map (f ((x :: xs).take b))).length := by
            rw [List.length_map, List.length_take]
            exact lt_min hib hi2
          rw [List.getD_append _ _ _ _ h1, List.getD_eq_getElem _ _ h1,
              List.getElem_map, List.getElem_take,
              ← List.getD_eq_getElem (x :: xs) dB]
          rw [Nat.div_eq_of_lt hib]
          simp
        · have h1 : (((x :: xs).take b).map (f ((x :: xs).take b))).length = b := by
            rw [List.length_map, List.length_take]
            omega
          rw [List.getD_append_right _ _ _ _ (by omega), h1]
          rw [ih ((x :: xs).drop b) (i - b)
              (by simp only [List.length_drop, List.length_cons]
                  simp only [List.length_cons] at hl
                  omega)
              (by simp only [List.length_drop]; omega)]
          rw [List.drop_drop]
          have hdiv : i / b = (i - b) / b + 1 := Nat.div_eq_sub_div hb hib
          have harith : b + b * ((i - b) / b) = b * (i / b) := by
            rw [hdiv]; ring
          rw [harith]
          have hgd : ((x :: xs).drop b).getD (i - b) dB = (x :: xs).getD i dB := by
            have h2 : i - b < ((x :: xs).drop b).length := by
              simp only [List.length_drop]; omega
            rw [List.getD_eq_getElem _ _ h2, List.getD_eq_getElem _ _ hi2,
                List.getElem_drop]
            congr 1
            omega
          rw [hgd]
  exact aux l.length l i (le_refl _) hi

theorem dot_zeroVec_left (D : Nat) (v : List A) : dot (zeroVec D : List A) v = 0 := by
  induction D generalizing v with
  | zero => simp [dot, zeroVec]
  | succ n ih =>
    cases v with
    | nil => simp [dot, zeroVec]
    | cons h t =>
      simp only [dot, zeroVec, List.replicate_succ, List.zipWith_cons_cons,
        List.sum_cons, zero_mul, zero_add]
      exact ih t

theorem dot_zeroVec_right (D : Nat) (v : List A) : dot v (zeroVec D : List A) = 0 := by
  induction D generalizing v with
  | zero =>
    cases v <;> simp [dot, zeroVec]
  | succ n ih =>
    cases v with
    | nil => simp [dot, zeroVec]
    | cons h t =>
      simp only [dot, zeroVec, List.replicate_succ, List.zipWith_cons_cons,
        List.sum_cons, mul_zero, zero_add]
      exact ih t

theorem listMax_of_all_zero (l : List A) (h : ∀ x ∈ l, x = 0) : listMax l = 0 := by
  cases l with
  | nil => rfl
  | cons x xs =>
    show xs.foldl max x = 0
    have hx : x = 0 := h x (List.mem_cons_self x xs)
    subst hx
    have aux : ∀ (m : List A), (∀ y ∈ m, y = (0 : A)) → m.foldl max (0 : A) = 0 := by
      intro m
      induction m with
      | nil => intro _; rfl
      | cons y ys ih =>
        intro hm
        have hy : y = 0 := hm y (List.mem_cons_self y ys)
        subst hy
        show ys.foldl max (max 0 0) = 0
        rw [max_self]
        exact ih (fun z hz => hm z (List.mem_cons_of_mem _ hz))
    exact aux xs (fun y hy => h y (List.mem_cons_of_mem _ hy))

theorem maxSimPair_append_zeros (D k : Nat) (q p : List (List A)) :
    maxSimPair (q ++ List.replicate k (zeroVec D)) p = maxSimPair q p := by
  unfold maxSimPair
  rw [List.map_append, List.sum_append, List.map_replicate]
  have hz : listMax (p.map (fun pv => dot (zeroVec D : List A) pv)) = 0 := by
    apply listMax_of_all_zero
    intro x hx
    rcases List.mem_map.mp hx with ⟨pv, _, hpv⟩
    rw [← hpv]
    exact dot_zeroVec_left D pv
  rw [hz, List.sum_replicate, smul_zero, add_zero]

theorem maxSimPair_padTo_left (D L : Nat) (q p : List (List A)) :
    maxSimPair (padTo D L q) p = maxSimPair q p := by
  unfold padTo
  exact maxSimPair_append_zeros D (L - q.length) q p

theorem padTo_length (D L : Nat) (e : List (List A)) (h : e.length ≤ L) :
    (padTo D L e).length = L := by
  simp only [padTo, List.length_append, List.length_replicate]
  omega

theorem padTo_eq_self (D L : Nat) (e : List (List A)) (h : e.length = L) :
    padTo D L e = e := by
  simp [padTo, h]

theorem maxLen_cons (e : List (List A)) (es : List (List (List A))) :
    maxLen (e :: es) = max e.length (maxLen es) := rfl

theorem le_maxLen_of_mem (es : List (List (List A))) (e : List (List A))
    (he : e ∈ es) : e.length ≤ maxLen es := by
  induction es with
  | nil => simp at he
  | cons x xs ih =>
    rw [maxLen_cons]
    rcases List.mem_cons.mp he with heq | hmem
    · subst heq
      exact le_max_left _ _
    · exact le_trans (ih hmem) (le_max_right _ _)

theorem maxLen_of_all_eq (es : List (List (List A))) (L : Nat)
    (hne : es ≠ []) (h : ∀ e ∈ es, e.length = L) : maxLen es = L := by
  induction es with
  | nil => exact absurd rfl hne
  | cons x xs ih =>
    rw [maxLen_cons, h x (List.mem_cons_self x xs)]
    cases xs with
    | nil => simp [maxLen]
    | cons y ys =>
      rw [ih (by simp) (fun e he => h e (List.mem_cons_of_mem _ he))]
      exact max_self L

theorem map_eq_range_getD {B C : Type} (l : List B) (f : B → C) (d : B) :
    l.map f = (List.range l.length).map (fun n => f (l.getD n d)) := by
  induction l with
  | nil => rfl
  | cons x xs ih =>
    rw [List.map_cons, List.length_cons, List.range_succ_eq_map, List.map_cons,
        List.map_map, ih]
    rfl

theorem getD_mem_batchOf {B : Type} (b : Nat) (hb : 0 < b) (l : List B)
    (i : Nat) (hi : i < l.length) (d : B) : l.getD i d ∈ batchOf b l i := by
  unfold batchOf
  have hle : b * (i / b) ≤ i := by
    have := Nat.div_mul_le_self i b
    calc b * (i / b) = i / b * b := Nat.mul_comm _ _
    _ ≤ i := Nat.div_mul_le_self i b
  have hmod : i - b * (i / b) < b := by
    have := Nat.mod_lt i hb
    have hmd : i % b = i - b * (i / b) := by
      rw [Nat.mod_def]
    omega
  have hidx : i - b * (i / b) < ((l.drop (b * (i / b))).take b).length := by
    rw [List.length_take, List.length_drop]
    omega
  have : ((l.drop (b * (i / b))).take b).getD (i - b * (i / b)) d = l.getD i d := by
    rw [List.getD_eq_getElem _ _ hidx, List.getElem_take, List.getElem_drop,
        List.getD_eq_getElem _ _ hi]
    congr 1
    omega
  rw [← this, List.getD_eq_getElem _ _ hidx]
  apply List.getElem_mem

theorem hcat2_map {B : Type} (Q : List B) (f g : B → List A) :
    hcat2 (Q.map f) (Q.map g) = Q.map (fun q => f q ++ g q) := by
  induction Q with
  | nil => rfl
  | cons x xs ih =>
    simp only [List.map_cons, hcat2, List.zipWith_cons_cons]
    exact congrArg (List.cons _) ih

theorem hcat_foldl_map {B M2 : Type} (Q : List B) (Ms : List M2)
    (f : M2 → B → List A) (g : B → List A) :
    (Ms.map (fun m => Q.map (f m))).foldl hcat2 (Q.map g)
      = Q.map (fun q => g q ++ (Ms.map (fun m => f m q)).flatten) := by
  induction Ms generalizing g with
  | nil => simp
  | cons m ms ih =>
    rw [List.map_cons, List.foldl_cons, hcat2_map, ih (fun q => g q ++ f m q)]
    simp [List.append_assoc]

theorem hcat_map {B M2 : Type} (Q : List B) (Ms : List M2)
    (f : M2 → B → List A) (hM : Ms ≠ []) :
    hcat (Ms.map (fun m => Q.map (f m)))
      = Q.map (fun q => (Ms.map (fun m => f m q)).flatten) := by
  cases Ms with
  | nil => exact absurd rfl hM
  | cons m ms =>
    show (ms.map (fun m2 => Q.map (f m2))).foldl hcat2 (Q.map (f m)) = _
    rw [hcat_foldl_map Q ms f (f m)]
    simp

theorem hcat_scoresBlock (D b2 : Nat) (hb : 0 < b2)
    (qb ps : List (List (List A))) (hp : ps ≠ []) :
    hcat ((toBatches b2 ps).map (fun pb =>
        scoresBlock (padSequence D qb) (padSequence D pb)))
      = qb.map (fun q => (toBatches b2 ps).flatMap (fun pb =>
          pb.map (fun p => maxSimPair q (padTo D (maxLen pb) p)))) := by
  have hpB : toBatches b2 ps ≠ [] := toBatches_ne_nil b2 hb ps hp
  unfold scoresBlock
  rw [hcat_map (padSequence D qb) (toBatches b2 ps)
      (fun pb q => (padSequence D pb).map (fun p => maxSimPair q p)) hpB]
  unfold padSequence
  simp only [List.map_map, Function.comp_def, maxSimPair_padTo_left]
  simp only [← List.flatMap_def]

/-- Canonical unbatched form of `score_multi_vector`: for a positive batch
size and non-empty inputs the call succeeds, and the score matrix has one row
per query in order, whose entry for passage `j` is the MaxSim sum of the raw
query against the passage padded to the maximal length of the passage batch
containing `j`. Query-side padding cancels (zero rows contribute zero), so
only the passage-side per-batch padding remains visible. -/
theorem score_multi_canonical (D : Nat) (dev : Device)
    (qs ps : List (List (List A))) (b : Int) (hb : 0 < b)
    (hq : qs ≠ []) (hp : ps ≠ []) :
    score_multi_vector D dev qs ps b =
      .ok ⟨qs.map (fun q => (toBatches b.toNat ps).flatMap (fun pb =>
             pb.map (fun p => maxSimPair q (padTo D (maxLen pb) p)))),
           Device.cpu, DType.float32⟩ := by
  have hbn : 0 < b.toNat := by omega
  have hq0 : ¬ qs.length = 0 := fun h => hq (List.length_eq_zero.mp h)
  have hp0 : ¬ ps.length = 0 := fun h => hp (List.length_eq_zero.mp h)
  have hbz : ¬ b = 0 := by omega
  have hbneg : ¬ b < 0 := by omega
  unfold score_multi_vector
  rw [if_neg hq0, if_neg hp0, if_neg hbz, if_neg hbneg, if_neg hbneg]
  simp only [hcat_scoresBlock D b.toNat hbn _ ps hp]
  have hqB : toBatches b.toNat qs ≠ [] := toBatches_ne_nil b.toNat hbn qs hq
  rcases List.exists_cons_of_ne_nil hqB with ⟨c, cs, hcons⟩
  rw [hcons]
  rw [show ((List.map _ (c :: cs)).isEmpty) = false from rfl]
  simp only [Bool.false_eq_true, if_false]
  rw [← hcons, ← List.map_flatten, toBatches_flatten b.toNat hbn qs]
  rw [if_pos (List.length_map _ _)]

theorem flatMap_maxSim_const_len (D b2 : Nat) (hb : 0 < b2)
    (ps : List (List (List A))) (L : Nat) (hL : ∀ p ∈ ps, p.length = L)
    (q : List (List A)) :
    (toBatches b2 ps).flatMap (fun pb =>
        pb.map (fun p => maxSimPair q (padTo D (maxLen pb) p)))
      = ps.map (fun p => maxSimPair q p) := by
  have hcongr : ∀ pb ∈ toBatches b2 ps,
      pb.map (fun p => maxSimPair q (padTo D (maxLen pb) p))
        = pb.map (fun p => maxSimPair q p) := by
    intro pb hpb
    apply List.map_congr_left
    intro p hp
    have hpl : p.length = L := hL p (mem_of_mem_toBatches b2 hb ps pb hpb p hp)
    have hpbne : pb ≠ [] := toBatches_chunk_ne_nil b2 hb ps pb hpb
    have hmax : maxLen pb = L := maxLen_of_all_eq pb L hpbne
      (fun e he => hL e (mem_of_mem_toBatches b2 hb ps pb hpb e he))
    rw [hmax, padTo_eq_self D L p hpl]
  rw [List.flatMap_def, List.map_congr_left hcongr, ← List.flatMap_def,
      List.flatMap_def, ← List.map_flatten, toBatches_flatten b2 hb ps]

theorem maxSimPair_eq_range (q p : List (List A)) :
    maxSimPair q p
      = ((List.range q.length).map (fun n =>
          listMax ((List.range p.length).map (fun s =>
            dot (q.getD n []) (p.getD s []))))).sum := by
  unfold maxSimPair
  rw [map_eq_range_getD q _ []]
  congr 1
  apply List.map_congr_left
  intro n _
  congr 1
  exact map_eq_range_getD p _ []

theorem set_getD_self {B : Type} (l : List B) (i : Nat) (d : B)
    (hi : i < l.length) : l.set i (l.getD i d) = l := by
  induction l generalizing i with
  | nil => simp at hi
  | cons x xs ih =>
    cases i with
    | zero => rfl
    | succ n =>
      show x :: xs.set n (xs.getD n d) = x :: xs
      rw [ih n (by simpa using hi)]

theorem score_single_canonical (dev : Device) (qs ps : List (List A))
    (hq : qs ≠ []) (hp : ps ≠ []) :
    score_single_vector dev qs ps =
      .ok ⟨qs.map (fun q => ps.map (fun p => dot q p)), dev, DType.float32⟩ := by
  have hq0 : ¬ qs.length = 0 := fun h => hq (List.length_eq_zero.mp h)
  have hp0 : ¬ ps.length = 0 := fun h => hp (List.length_eq_zero.mp h)
  unfold score_single_vector
  rw [if_neg hq0, if_neg hp0, if_pos (List.length_map _ _)]

theorem getD_map_of_lt {B C : Type} (l : List B) (f : B → C) (i : Nat)
    (hi : i < l.length) (dC : C) (dB : B) :
    (l.map f).getD i dC = f (l.getD i dB) := by
  have hi2 : i < (l.map f).length := by rw [List.length_map]; exact hi
  rw [List.getD_eq_getElem _ _ hi2, List.getElem_map, List.getD_eq_getElem _ _ hi]

/-- C1: for non-empty multi-vector embedding lists (each passage having at
least one token vector) and any positive batch size, `score_multi_vector`
succeeds and entry `(i, j)` of the returned matrix is the MaxSim score: for
each token position `n` of the padded query `i`, the maximum over all padded
passage token positions `s` (padding rows are zero vectors and are not masked
out) of the dot product of query token `n` and passage token `s`, summed over
all query token positions. Padding is to the maximal length of the batch
containing the item, per the batched evaluation of the source. -/
theorem maxsim_entry_matches_spec (D : Nat) (dev : Device)
    (qs ps : List (List (List A))) (b : Int) (hb : 0 < b)
    (hq : qs ≠ []) (hp : ps ≠ []) (hpe : ∀ p ∈ ps, p ≠ [])
    (i j : Nat) (hi : i < qs.length) (hj : j < ps.length) :
    ∃ t, score_multi_vector D dev qs ps b = .ok t ∧
      entryAt t i j = specMaxSimEntry D b.toNat qs ps i j := by
  have hbn : 0 < b.toNat := by omega
  refine ⟨_, score_multi_canonical D dev qs ps b hb hq hp, ?_⟩
  unfold entryAt
  rw [getD_map_of_lt qs _ i hi [] []]
  show ((toBatches b.toNat ps).flatMap (fun pb =>
      pb.map (fun p => maxSimPair (qs.getD i []) (padTo D (maxLen pb) p)))).getD j 0
    = specMaxSimEntry D b.toNat qs ps i j
  rw [toBatches_flatMap_getD b.toNat hbn
      (fun pb p => maxSimPair (qs.getD i []) (padTo D (maxLen pb) p)) 0 [] ps j hj]
  show maxSimPair (qs.getD i []) (padTo D (maxLen (batchOf b.toNat ps j)) (ps.getD j []))
    = specMaxSimEntry D b.toNat qs ps i j
  have hqlen : (qs.getD i []).length ≤ maxLen (batchOf b.toNat qs i) :=
    le_maxLen_of_mem _ _ (getD_mem_batchOf b.toNat hbn qs i hi [])
  have hplen : (ps.getD j []).length ≤ maxLen (batchOf b.toNat ps j) :=
    le_maxLen_of_mem _ _ (getD_mem_batchOf b.toNat hbn ps j hj [])
  have hspec : specMaxSimEntry D b.toNat qs ps i j
      = maxSimPair (padTo D (maxLen (batchOf b.toNat qs i)) (qs.getD i []))
          (padTo D (maxLen (batchOf b.toNat ps j)) (ps.getD j [])) := by
    unfold specMaxSimEntry
    rw [maxSimPair_eq_range, padTo_length D _ _ hqlen, padTo_length D _ _ hplen]
  rw [hspec, maxSimPair_padTo_left]

/-- C1 witness: a concrete evaluation of the theorem, with one query of one
token and two passages of different lengths in a common batch. -/
theorem maxsim_entry_matches_spec_witness :
    (0 : Int) < 2 ∧
    ∃ t, score_multi_vector 1 Device.cpu [[[(2:ℤ)]]] [[[(3:ℤ)]], [[(5:ℤ)], [(7:ℤ)]]] 2 = .ok t ∧
      entryAt t 0 1 = specMaxSimEntry 1 2 [[[(2:ℤ)]]] [[[(3:ℤ)]], [[(5:ℤ)], [(7:ℤ)]]] 0 1 :=
  ⟨by decide,
   maxsim_entry_matches_spec 1 Device.cpu [[[(2:ℤ)]]] [[[(3:ℤ)]], [[(5:ℤ)], [(7:ℤ)]]] 2
     (by decide) (by decide) (by decide) (by decide) 0 1 (by decide) (by decide)⟩

/-- C2: for non-empty single-vector inputs, `score_single_vector` returns a
matrix of shape (number of queries, number of passages) whose entry `(i, j)`
is the exact dot product of query `i` and passage `j`, and the returned
tensor carries the float32 dtype (the model computes exactly; the cast is the
symbolic dtype tag set by `.to(torch.float32)`). -/
theorem score_single_exact (dev : Device) (qs ps : List (List A))
    (hq : qs ≠ []) (hp : ps ≠ []) :
    ∃ t, score_single_vector dev qs ps = .ok t ∧
      t.data.length = qs.length ∧
      (∀ i, i < qs.length → (t.data.getD i []).length = ps.length) ∧
      (∀ i j, i < qs.length → j < ps.length →
        entryAt t i j = dot (qs.getD i []) (ps.getD j [])) ∧
      t.dtype = DType.float32 := by
  refine ⟨_, score_single_canonical dev qs ps hq hp, List.length_map _ _, ?_, ?_, rfl⟩
  · intro i hi
    rw [getD_map_of_lt qs _ i hi [] []]
    exact List.length_map _ _
  · intro i j hi hj
    unfold entryAt
    rw [getD_map_of_lt qs _ i hi [] []]
    show ((fun q => ps.map (fun p => dot q p)) (qs.getD i [])).getD j 0 = _
    rw [show (fun q => ps.map (fun p => dot q p)) (qs.getD i [])
        = ps.map (fun p => dot (qs.getD i []) p) from rfl]
    rw [getD_map_of_lt ps _ j hj 0 []]

/-- C2 witness: a concrete evaluation of the theorem. -/
theorem score_single_exact_witness :
    ([[(1:ℤ), 2]] : List (List ℤ)) ≠ [] ∧
    ∃ t, score_single_vector Device.cpu [[(1:ℤ), 2]] [[(3:ℤ), 4], [(5:ℤ), 6]] = .ok t ∧
      t.data.length = 1 ∧
      (∀ i, i < ([[(1:ℤ), 2]] : List (List ℤ)).length → (t.data.getD i []).length = 2) ∧
      (∀ i j, i < ([[(1:ℤ), 2]] : List (List ℤ)).length →
        j < ([[(3:ℤ), 4], [(5:ℤ), 6]] : List (List ℤ)).length →
        entryAt t i j = dot (([[(1:ℤ), 2]] : List (List ℤ)).getD i [])
          (([[(3:ℤ), 4], [(5:ℤ), 6]] : List (List ℤ)).getD j [])) ∧
      t.dtype = DType.float32 :=
  ⟨by decide,
   score_single_exact Device.cpu [[(1:ℤ), 2]] [[(3:ℤ), 4], [(5:ℤ), 6]]
     (by decide) (by decide)⟩

theorem score_single_error_empty_qs (dev : Device) (psv : List (List A)) :
    score_single_vector dev ([] : List (List A)) psv = .error "No queries provided" := rfl

theorem score_single_error_empty_ps (dev : Device) (qsv : List (List A))
    (hq : qsv ≠ []) :
    score_single_vector dev qsv ([] : List (List A)) = .error "No passages provided" := by
  unfold score_single_vector
  rw [if_neg (fun h => hq (List.length_eq_zero.mp h))]
  rfl

theorem score_multi_error_empty_qs (D : Nat) (dev : Device)
    (ps : List (List (List A))) (b : Int) :
    score_multi_vector D dev ([] : List (List (List A))) ps b
      = .error "No queries provided" := rfl

theorem score_multi_error_empty_ps (D : Nat) (dev : Device)
    (qs : List (List (List A))) (hq : qs ≠ []) (b : Int) :
    score_multi_vector D dev qs ([] : List (List (List A))) b
      = .error "No passages provided" := by
  unfold score_multi_vector
  rw [if_neg (fun h => hq (List.length_eq_zero.mp h))]
  rfl

theorem score_multi_nonpos_isOk_false (D : Nat) (dev : Device)
    (qs ps : List (List (List A))) (hq : qs ≠ []) (hp : ps ≠ [])
    (b : Int) (hb : b ≤ 0) :
    (score_multi_vector D dev qs ps b).isOk = false := by
  have hq0 : ¬ qs.length = 0 := fun h => hq (List.length_eq_zero.mp h)
  have hp0 : ¬ ps.length = 0 := fun h => hp (List.length_eq_zero.mp h)
  unfold score_multi_vector
  rw [if_neg hq0, if_neg hp0]
  by_cases hz : b = 0
  · rw [if_pos hz]; rfl
  · have hneg : b < 0 := by omega
    rw [if_neg hz, if_pos hneg, if_pos hneg]
    rfl

theorem get_topk_error_empty_qs {R : Type} (D : Nat) (dev : Device)
    (sf : Tensor3 A → Nat → List R) (k : Nat) (b : Int) :
    get_topk_plaid D dev sf ([] : List (List (List A))) k b
      = .error "No queries provided" := rfl

/-- C3 counterexample: with one single-token query of value -1 and two
passages of lengths 1 and 2, batch sizes 1 and 2 give different score
matrices. With batch size 2 the shorter passage is zero-padded inside its
batch, and the unmasked maximum picks the padded zero over the genuine
negative dot product; with batch size 1 no passage padding happens. -/
theorem score_multi_batchsize_cex :
    (score_multi_vector 1 Device.cpu [[[(-1:ℤ)]]] [[[(1:ℤ)]], [[(1:ℤ)], [(1:ℤ)]]] 1).toOption
      ≠ (score_multi_vector 1 Device.cpu [[[(-1:ℤ)]]] [[[(1:ℤ)]], [[(1:ℤ)], [(1:ℤ)]]] 2).toOption := by
  decide

/-- C3 amended: batch-size invariance of `score_multi_vector` holds whenever
all passage embeddings share one common positive sequence length, so that the
per-batch passage padding is vacuous (the general statement fails: see the
counterexample, where per-batch zero padding of a shorter passage changes an
all-negative maximum). Query-side length differences never matter. -/
theorem score_multi_batchsize_invariant (D : Nat) (dev : Device)
    (qs ps : List (List (List A))) (b1 b2 : Int) (h1 : 0 < b1) (h2 : 0 < b2)
    (hq : qs ≠ []) (hp : ps ≠ []) (L : Nat) (hL : 0 < L)
    (hlen : ∀ p ∈ ps, p.length = L) :
    score_multi_vector D dev qs ps b1 = score_multi_vector D dev qs ps b2 := by
  rw [score_multi_canonical D dev qs ps b1 h1 hq hp,
      score_multi_canonical D dev qs ps b2 h2 hq hp]
  simp only [flatMap_maxSim_const_len D b1.toNat (by omega) ps L hlen,
    flatMap_maxSim_const_len D b2.toNat (by omega) ps L hlen]

/-- C3 amended witness: a concrete evaluation of the theorem. -/
theorem score_multi_batchsize_invariant_witness :
    score_multi_vector 1 Device.cpu [[[(1:ℤ)]]] [[[(2:ℤ)]], [[(3:ℤ)]]] 1
      = score_multi_vector 1 Device.cpu [[[(1:ℤ)]]] [[[(2:ℤ)]], [[(3:ℤ)]]] 2 :=
  score_multi_batchsize_invariant 1 Device.cpu [[[(1:ℤ)]]] [[[(2:ℤ)]], [[(3:ℤ)]]] 1 2
    (by decide) (by decide) (by decide) (by decide) 1 (by decide) (by decide)

/-- C4: the three retrieval entry points reject empty query sets, and the two
scoring functions also reject empty passage sets; no such call returns a
zero-dimension result silently. -/
theorem empty_inputs_rejected {R : Type} (D : Nat) (dev : Device)
    (sf : Tensor3 A → Nat → List R) (k : Nat) (b : Int)
    (qsv psv : List (List A)) (qs ps : List (List (List A))) :
    (qsv = [] ∨ psv = [] → (score_single_vector dev qsv psv).isOk = false)
    ∧ (qs = [] ∨ ps = [] → (score_multi_vector D dev qs ps b).isOk = false)
    ∧ (qs = [] → (get_topk_plaid D dev sf qs k b).isOk = false) := by
  refine ⟨?_, ?_, ?_⟩
  · rintro (h | h)
    · subst h; rw [score_single_error_empty_qs]; rfl
    · subst h
      by_cases hqe : qsv = []
      · subst hqe; rw [score_single_error_empty_qs]; rfl
      · rw [score_single_error_empty_ps dev qsv hqe]; rfl
  · rintro (h | h)
    · subst h; rw [score_multi_error_empty_qs]; rfl
    · subst h
      by_cases hqe : qs = []
      · subst hqe; rw [score_multi_error_empty_qs]; rfl
      · rw [score_multi_error_empty_ps D dev qs hqe b]; rfl
  · intro h
    subst h
    rw [get_topk_error_empty_qs]; rfl

/-- C4 witness: concrete empty-input calls are rejected. -/
theorem empty_inputs_rejected_witness :
    ((score_single_vector Device.cpu ([] : List (List ℤ)) [[(1:ℤ)]]).isOk = false)
    ∧ ((score_single_vector Device.cpu [[(1:ℤ)]] ([] : List (List ℤ))).isOk = false)
    ∧ ((score_multi_vector 1 Device.cpu ([] : List (List (List ℤ))) [[[(1:ℤ)]]] 128).isOk = false)
    ∧ ((score_multi_vector 1 Device.cpu [[[(1:ℤ)]]] ([] : List (List (List ℤ))) 128).isOk = false)
    ∧ ((get_topk_plaid 1 Device.cpu
        (fun (t : Tensor3 ℤ) (_ : Nat) => t.data.map (fun _ => (0:ℤ)))
        ([] : List (List (List ℤ))) 10 128).isOk = false) :=
  ⟨(empty_inputs_rejected 1 Device.cpu
      (fun (t : Tensor3 ℤ) (_ : Nat) => t.data.map (fun _ => (0:ℤ))) 10 128
      [] [[(1:ℤ)]] [] [[[(1:ℤ)]]]).1 (Or.inl rfl),
   (empty_inputs_rejected 1 Device.cpu
      (fun (t : Tensor3 ℤ) (_ : Nat) => t.data.map (fun _ => (0:ℤ))) 10 128
      [[(1:ℤ)]] [] [] [[[(1:ℤ)]]]).1 (Or.inr rfl),
   (empty_inputs_rejected 1 Device.cpu
      (fun (t : Tensor3 ℤ) (_ : Nat) => t.data.map (fun _ => (0:ℤ))) 10 128
      [[(1:ℤ)]] [[(1:ℤ)]] [] [[[(1:ℤ)]]]).2.1 (Or.inl rfl),
   (empty_inputs_rejected 1 Device.cpu
      (fun (t : Tensor3 ℤ) (_ : Nat) => t.data.map (fun _ => (0:ℤ))) 10 128
      [[(1:ℤ)]] [[(1:ℤ)]] [[[(1:ℤ)]]] []).2.1 (Or.inr rfl),
   (empty_inputs_rejected 1 Device.cpu
      (fun (t : Tensor3 ℤ) (_ : Nat) => t.data.map (fun _ => (0:ℤ))) 10 128
      [[(1:ℤ)]] [[(1:ℤ)]] [] [[[(1:ℤ)]]]).2.2 rfl⟩

/-- C5: for non-empty inputs (and a positive batch size for the multi-vector
path) both scoring functions succeed and return exactly one row per query;
the internal assert on the row count never fires. -/
theorem score_shape_postcondition (D : Nat) (dev : Device)
    (qsv psv : List (List A)) (qs ps : List (List (List A))) (b : Int)
    (hb : 0 < b) (hqv : qsv ≠ []) (hpv : psv ≠ []) (hq : qs ≠ []) (hp : ps ≠ []) :
    (∃ t, score_single_vector dev qsv psv = .ok t ∧ t.data.length = qsv.length)
    ∧ (∃ t, score_multi_vector D dev qs ps b = .ok t ∧ t.data.length = qs.length) :=
  ⟨⟨_, score_single_canonical dev qsv psv hqv hpv, List.length_map _ _⟩,
   ⟨_, score_multi_canonical D dev qs ps b hb hq hp, List.length_map _ _⟩⟩

/-- C5 witness: a concrete evaluation of the theorem. -/
theorem score_shape_postcondition_witness :
    (∃ t, score_single_vector Device.cpu [[(1:ℤ)]] [[(2:ℤ)]] = .ok t ∧ t.data.length = 1)
    ∧ (∃ t, score_multi_vector 1 Device.cpu [[[(1:ℤ)]]] [[[(2:ℤ)]]] 128 = .ok t ∧
        t.data.length = 1) :=
  score_shape_postcondition 1 Device.cpu [[(1:ℤ)]] [[(2:ℤ)]] [[[(1:ℤ)]]] [[[(2:ℤ)]]] 128
    (by decide) (by decide) (by decide) (by decide) (by decide)

/-- C10: a non-positive batch size always makes `score_multi_vector` fail on
non-empty inputs: zero makes the batching `range` raise at once, and a
negative value yields no batches, so the final `torch.cat` raises on an empty
list; no score matrix is ever produced. -/
theorem nonpositive_batchsize_errors (D : Nat) (dev : Device)
    (qs ps : List (List (List A))) (hq : qs ≠ []) (hp : ps ≠ [])
    (b : Int) (hb : b ≤ 0) :
    (b = 0 → score_multi_vector D dev qs ps b
        = .error "ValueError: range() arg 3 must not be zero")
    ∧ (b < 0 → score_multi_vector D dev qs ps b
        = .error "RuntimeError: torch.cat expected a non-empty list of Tensors")
    ∧ (score_multi_vector D dev qs ps b).isOk = false := by
  have hq0 : ¬ qs.length = 0 := fun h => hq (List.length_eq_zero.mp h)
  have hp0 : ¬ ps.length = 0 := fun h => hp (List.length_eq_zero.mp h)
  refine ⟨?_, ?_, score_multi_nonpos_isOk_false D dev qs ps hq hp b hb⟩
  · intro hz
    unfold score_multi_vector
    rw [if_neg hq0, if_neg hp0, if_pos hz]
  · intro hneg
    have hbz : ¬ b = 0 := by omega
    unfold score_multi_vector
    rw [if_neg hq0, if_neg hp0, if_neg hbz, if_pos hneg, if_pos hneg]
    rfl

/-- C10 witness: concrete zero and negative batch sizes fail. -/
theorem nonpositive_batchsize_errors_witness :
    (score_multi_vector 1 Device.cpu [[[(1:ℤ)]]] [[[(2:ℤ)]]] 0
      = .error "ValueError: range() arg 3 must not be zero")
    ∧ (score_multi_vector 1 Device.cpu [[[(1:ℤ)]]] [[[(2:ℤ)]]] (-5)
      = .error "RuntimeError: torch.cat expected a non-empty list of Tensors") :=
  ⟨(nonpositive_batchsize_errors 1 Device.cpu [[[(1:ℤ)]]] [[[(2:ℤ)]]]
     (by decide) (by decide) 0 (by decide)).1 rfl,
   (nonpositive_batchsize_errors 1 Device.cpu [[[(1:ℤ)]]] [[[(2:ℤ)]]]
     (by decide) (by decide) (-5) (by decide)).2.1 (by decide)⟩

theorem map_set_eq_of_eq {B C : Type} (l : List B) (f : B → C) (i : Nat)
    (hi : i < l.length) (x : B) (d : B) (hx : f x = f (l.getD i d)) :
    (l.set i x).map f = l.map f := by
  rw [List.map_set, hx, ← getD_map_of_lt l f i hi (f d) d,
      set_getD_self (l.map f) i (f d) (by rw [List.length_map]; exact hi)]

/-- C6 counterexample: the claim says `get_topk_plaid` returns the per-batch
results concatenated in query order, one ranked list per query. With three
queries and batch size 2 the code instead returns the raw two-element list of
per-batch search results (`scores_list` is returned without concatenation),
so the result does not have one entry per query. -/
theorem get_topk_not_per_query_cex :
    (get_topk_plaid 1 Device.cpu
        (fun (t : Tensor3 ℤ) (_ : Nat) => t.data.map (fun _ => ([(7:ℤ)])))
        [[[(1:ℤ)]], [[(1:ℤ)]], [[(1:ℤ)]]] 10 2).toOption.map List.length
      ≠ some 3 := by
  decide

/-- C6 amended: for a positive batch size and non-empty queries,
`get_topk_plaid` cuts the queries into consecutive batches of at most
`batch_size`, pads each batch, casts it to float32, hands it to the external
search requesting `k` results per query, and returns the list of per-batch
results in batch order, without concatenating them across batches: the result
has one entry per batch (ceiling of `|Q| / batch_size`), not one per query. -/
theorem get_topk_plaid_batched {R : Type} (D : Nat) (dev : Device)
    (sf : Tensor3 A → Nat → List R) (qs : List (List (List A))) (k : Nat)
    (b : Int) (hb : 0 < b) (hq : qs ≠ []) :
    ∃ L2, get_topk_plaid D dev sf qs k b = .ok L2 ∧
      L2.length = (qs.length + b.toNat - 1) / b.toNat ∧
      ∀ m, m < L2.length →
        L2.getD m [] =
          sf ⟨padSequence D ((qs.drop (b.toNat * m)).take b.toNat),
              dev, DType.float32⟩ k := by
  have hbn : 0 < b.toNat := by omega
  have hq0 : ¬ qs.length = 0 := fun h => hq (List.length_eq_zero.mp h)
  have hbz : ¬ b = 0 := by omega
  have hbneg : ¬ b < 0 := by omega
  unfold get_topk_plaid
  rw [if_neg hq0, if_neg hbz, if_neg hbneg]
  refine ⟨_, rfl, ?_, ?_⟩
  · rw [List.length_map, toBatches_length b.toNat hbn]
  · intro m hm
    rw [List.length_map] at hm
    rw [getD_map_of_lt (toBatches b.toNat qs) _ m hm [] []]
    show sf ⟨padSequence D ((toBatches b.toNat qs).getD m []), dev, DType.float32⟩ k = _
    rw [toBatches_getD b.toNat hbn qs m]

/-- C6 amended witness: a concrete evaluation of the theorem with three
queries and batch size 2. -/
theorem get_topk_plaid_batched_witness :
    ∃ L2, get_topk_plaid 1 Device.cpu
        (fun (t : Tensor3 ℤ) (_ : Nat) => t.data.map (fun _ => (0:ℤ)))
        [[[(1:ℤ)]], [[(1:ℤ)]], [[(1:ℤ)]]] 10 2 = .ok L2 ∧
      L2.length = 2 ∧
      ∀ m, m < L2.length →
        L2.getD m [] =
          (fun (t : Tensor3 ℤ) (_ : Nat) => t.data.map (fun _ => (0:ℤ)))
            ⟨padSequence 1 ((([[[(1:ℤ)]], [[(1:ℤ)]], [[(1:ℤ)]]] :
                List (List (List ℤ))).drop ((2:Int).toNat * m)).take (2:Int).toNat),
             Device.cpu, DType.float32⟩ 10 :=
  get_topk_plaid_batched 1 Device.cpu
    (fun (t : Tensor3 ℤ) (_ : Nat) => t.data.map (fun _ => (0:ℤ)))
    [[[(1:ℤ)]], [[(1:ℤ)]], [[(1:ℤ)]]] 10 2 (by decide) (by decide)

/-- C7 counterexample: a `score_single_vector` call on an accelerator device
returns its matrix on that device (there is no `.cpu()` transfer on the
single-vector path), so the result of a scoring call is not always in host
memory. -/
theorem single_device_cex :
    (score_single_vector Device.cuda [[(1:ℤ)]] [[(1:ℤ)]]).toOption.map Tensor2.device
      ≠ some Device.cpu := by
  decide

/-- C7 amended: every matrix returned by `score_multi_vector` lives on the
cpu (each batch block is transferred by `.cpu()` before assembly), while a
matrix returned by `score_single_vector` stays on the resolved compute
device, which is host memory only when that device is the cpu. -/
theorem result_device_placement (D : Nat) (dev : Device)
    (qsv psv : List (List A)) (qs ps : List (List (List A))) (b : Int) :
    (∀ t, score_single_vector dev qsv psv = .ok t → t.device = dev)
    ∧ (∀ t, score_multi_vector D dev qs ps b = .ok t → t.device = Device.cpu) := by
  constructor
  · intro t ht
    by_cases hqe : qsv = []
    · subst hqe
      rw [score_single_error_empty_qs] at ht
      exact Except.noConfusion ht
    · by_cases hpe : psv = []
      · subst hpe
        rw [score_single_error_empty_ps dev qsv hqe] at ht
        exact Except.noConfusion ht
      · rw [score_single_canonical dev qsv psv hqe hpe] at ht
        injection ht with h
        rw [← h]
  · intro t ht
    by_cases hqe : qs = []
    · subst hqe
      rw [score_multi_error_empty_qs] at ht
      exact Except.noConfusion ht
    · by_cases hpe : ps = []
      · subst hpe
        rw [score_multi_error_empty_ps D dev qs hqe b] at ht
        exact Except.noConfusion ht
      · by_cases hb : 0 < b
        · rw [score_multi_canonical D dev qs ps b hb hqe hpe] at ht
          injection ht with h
          rw [← h]
        · have hfail := score_multi_nonpos_isOk_false D dev qs ps hqe hpe b (by omega)
          rw [ht] at hfail
          exact Bool.noConfusion hfail

/-- C7 amended witness: concrete calls showing the single-vector result on
the cuda compute device and the multi-vector result on the cpu. -/
theorem result_device_placement_witness :
    ((⟨[[(1:ℤ)]], Device.cuda, DType.float32⟩ : Tensor2 ℤ).device = Device.cuda)
    ∧ ((⟨[[(1:ℤ)]], Device.cpu, DType.float32⟩ : Tensor2 ℤ).device = Device.cpu) :=
  ⟨(result_device_placement 1 Device.cuda [[(1:ℤ)]] [[(1:ℤ)]] [[[(1:ℤ)]]] [[[(1:ℤ)]]] 128).1
     ⟨[[(1:ℤ)]], Device.cuda, DType.float32⟩ rfl,
   (result_device_placement 1 Device.cuda [[(1:ℤ)]] [[(1:ℤ)]] [[[(1:ℤ)]]] [[[(1:ℤ)]]] 128).2
     ⟨[[(1:ℤ)]], Device.cpu, DType.float32⟩ rfl⟩

/-- C8: importing the module never fails when the `fast_plaid` backend is
missing (the ImportError is caught and only logged); the absence is detected
inside `create_plaid_index`, which fails with a distinguishable ImportError,
while both exact-scoring operations keep working. -/
theorem plaid_backend_optional {I : Type} (D : Nat)
    (createFn : List (Tensor2 A) → I) (dev : Device)
    (ps2 : List (List (List A))) (qsv psv : List (List A))
    (hqv : qsv ≠ []) (hpv : psv ≠ []) (qs ps : List (List (List A)))
    (b : Int) (hb : 0 < b) (hq : qs ≠ []) (hp : ps ≠ []) :
    moduleImport false = .ok false
    ∧ create_plaid_index false createFn dev ps2
        = .error "ImportError: FastPlaid is not installed"
    ∧ (score_single_vector dev qsv psv).isOk = true
    ∧ (score_multi_vector D dev qs ps b).isOk = true := by
  refine ⟨rfl, rfl, ?_, ?_⟩
  · rw [score_single_canonical dev qsv psv hqv hpv]; rfl
  · rw [score_multi_canonical D dev qs ps b hb hq hp]; rfl

/-- C8 witness: a concrete evaluation of the theorem. -/
theorem plaid_backend_optional_witness :
    moduleImport false = .ok false
    ∧ create_plaid_index false (fun l : List (Tensor2 ℤ) => l.length) Device.cpu [[[(1:ℤ)]]]
        = .error "ImportError: FastPlaid is not installed"
    ∧ (score_single_vector Device.cpu [[(1:ℤ)]] [[(2:ℤ)]]).isOk = true
    ∧ (score_multi_vector 1 Device.cpu [[[(1:ℤ)]]] [[[(2:ℤ)]]] 128).isOk = true :=
  plaid_backend_optional 1 (fun l : List (Tensor2 ℤ) => l.length) Device.cpu
    [[[(1:ℤ)]]] [[(1:ℤ)]] [[(2:ℤ)]] (by decide) (by decide)
    [[[(1:ℤ)]]] [[[(2:ℤ)]]] 128 (by decide) (by decide) (by decide)

/-- C9: padded (all-zero) query token rows contribute exactly zero to the
MaxSim sum (a zero vector has dot product zero with every passage token, so
its maximum over passage positions is zero), hence entry `(i, j)` equals the
MaxSim sum over only the real token positions of query `i`, and the whole
result is unchanged when a query embedding is extended with trailing all-zero
vectors. -/
theorem query_padding_neutral (D : Nat) (dev : Device)
    (qs ps : List (List (List A))) (b : Int) (hb : 0 < b)
    (hq : qs ≠ []) (hp : ps ≠ []) (hpe : ∀ p ∈ ps, p ≠ []) :
    (∀ i j, i < qs.length → j < ps.length →
      ∃ t, score_multi_vector D dev qs ps b = .ok t ∧
        entryAt t i j = specRealMaxSimEntry D b.toNat qs ps i j)
    ∧ (∀ i, i < qs.length → ∀ k,
        score_multi_vector D dev
          (qs.set i (qs.getD i [] ++ List.replicate k (zeroVec D))) ps b
          = score_multi_vector D dev qs ps b) := by
  have hbn : 0 < b.toNat := by omega
  constructor
  · intro i j hi hj
    refine ⟨_, score_multi_canonical D dev qs ps b hb hq hp, ?_⟩
    unfold entryAt
    rw [getD_map_of_lt qs _ i hi [] []]
    show ((toBatches b.toNat ps).flatMap (fun pb =>
        pb.map (fun p => maxSimPair (qs.getD i []) (padTo D (maxLen pb) p)))).getD j 0
      = specRealMaxSimEntry D b.toNat qs ps i j
    rw [toBatches_flatMap_getD b.toNat hbn
        (fun pb p => maxSimPair (qs.getD i []) (padTo D (maxLen pb) p)) 0 [] ps j hj]
    show maxSimPair (qs.getD i []) (padTo D (maxLen (batchOf b.toNat ps j)) (ps.getD j []))
      = specRealMaxSimEntry D b.toNat qs ps i j
    have hplen : (ps.getD j []).length ≤ maxLen (batchOf b.toNat ps j) :=
      le_maxLen_of_mem _ _ (getD_mem_batchOf b.toNat hbn ps j hj [])
    unfold specRealMaxSimEntry
    rw [maxSimPair_eq_range, padTo_length D _ _ hplen]
  · intro i hi k
    have hq2 : qs.set i (qs.getD i [] ++ List.replicate k (zeroVec D)) ≠ [] := by
      apply List.ne_nil_of_length_pos
      rw [List.length_set]
      exact List.length_pos.mpr hq
    rw [score_multi_canonical D dev _ ps b hb hq2 hp,
        score_multi_canonical D dev qs ps b hb hq hp,
        map_set_eq_of_eq qs _ i hi _ []
          (by simp only [maxSimPair_append_zeros])]

/-- C9 witness: a concrete evaluation of the theorem (entry form and
invariance under appending three zero rows to the query). -/
theorem query_padding_neutral_witness :
    (∃ t, score_multi_vector 1 Device.cpu [[[(2:ℤ)]]] [[[(3:ℤ)]], [[(5:ℤ)], [(7:ℤ)]]] 2 = .ok t ∧
       entryAt t 0 0
         = specRealMaxSimEntry 1 2 [[[(2:ℤ)]]] [[[(3:ℤ)]], [[(5:ℤ)], [(7:ℤ)]]] 0 0)
    ∧ score_multi_vector 1 Device.cpu
        (([[[(2:ℤ)]]] : List (List (List ℤ))).set 0
          (([[[(2:ℤ)]]] : List (List (List ℤ))).getD 0 [] ++ List.replicate 3 (zeroVec 1)))
        [[[(3:ℤ)]], [[(5:ℤ)], [(7:ℤ)]]] 2
      = score_multi_vector 1 Device.cpu [[[(2:ℤ)]]] [[[(3:ℤ)]], [[(5:ℤ)], [(7:ℤ)]]] 2 :=
  ⟨(query_padding_neutral 1 Device.cpu [[[(2:ℤ)]]] [[[(3:ℤ)]], [[(5:ℤ)], [(7:ℤ)]]] 2
      (by decide) (by decide) (by decide) (by decide)).1 0 0 (by decide) (by decide),
   (query_padding_neutral 1 Device.cpu [[[(2:ℤ)]]] [[[(3:ℤ)]], [[(5:ℤ)], [(7:ℤ)]]] 2
      (by decide) (by decide) (by decide) (by decide)).2 0 (by decide) 3⟩

end ColPali
